import Mathlib

/-!
Shallow embedding of the pmon interval timer (src/pmon.c, src/config.h).

Machine integers: every `unsigned int` field of `PmonConf` is modelled as a
`Nat` together with an explicit reduction modulo `UINT_MOD = 2^32` at each
arithmetic step where the C program can wrap (the increment of `cycle_count`,
the accumulator additions, the minutes-to-seconds multiplications).

Real time: the countdown loop of `run_phase` reads the wall clock through
`time(NULL)` and suspends with `sleep(1)`.  We model the clock as a natural
number that advances by exactly one at each sleep, and the asynchronous
SIGUSR1-driven `paused` flag as an oracle `paused : Nat → Bool` giving the
value of the flag at each integer instant at which the loop samples it.
The loop gets a fuel argument and returns `none` when the fuel runs out
(e.g. under an indefinite pause), together with the trace of the values the
loop writes each iteration (time, deadline, `left`, `current_phase_secs`),
so that properties of every intermediate state can be stated.

The two `FILE*` logging fields of the C struct and the rendering calls
(`log_time`, `clear_log_file`) are pure I/O and carry no timer state; they
are omitted from the embedding.
-/

-- src/config.h, lines 5-9
def DEFAULT_CYCLES : Nat := 4
def DEFAULT_WORK_MINS : Nat := 25
def DEFAULT_SHORT_BREAK_MINS : Nat := 5
def DEFAULT_LONG_BREAK_MINS : Nat := 30

-- src/pmon.c, line 9
def SECONDS_IN_MINUTE : Nat := 60

/-- Modulus of the C type `unsigned int` (32 bits). -/
def UINT_MOD : Nat := 4294967296

-- src/pmon.c, lines 11-15
inductive PmonPhase where
  | PMON_WORK
  | PMON_L_BREAK
  | PMON_S_BREAK
deriving DecidableEq

open PmonPhase

-- src/pmon.c, lines 17-31 (log_file / log_filepath omitted: I/O handles)
structure PmonConf where
  phase : PmonPhase
  cycle_count : Nat
  work_secs : Nat
  break_secs : Nat
  current_phase_secs : Nat
  cycles : Nat
  work_time : Nat
  lbreak_time : Nat
  sbreak_time : Nat
deriving DecidableEq

-- src/pmon.c, lines 64-68
def get_phase_length (conf : PmonConf) : Nat :=
  if conf.phase = PMON_WORK then conf.work_time
  else if conf.phase = PMON_L_BREAK then conf.lbreak_time
  else conf.sbreak_time

-- src/pmon.c, lines 70-77 (the source calls the local variable `mins`
-- although it holds seconds)
def update_tracked_time (conf : PmonConf) : PmonConf :=
  if conf.phase = PMON_WORK then
    { conf with work_secs := (conf.work_secs + conf.work_time) % UINT_MOD }
  else
    let mins := if conf.phase = PMON_L_BREAK then conf.lbreak_time else conf.sbreak_time
    { conf with break_secs := (conf.break_secs + mins) % UINT_MOD }

-- src/pmon.c, lines 79-88: returns the next phase and the mutated conf
-- (the `cycle_count++` is the 32-bit increment)
def get_next_phase (conf : PmonConf) : PmonPhase × PmonConf :=
  if conf.phase = PMON_WORK then
    let conf2 := { conf with cycle_count := (conf.cycle_count + 1) % UINT_MOD }
    ((if conf2.cycle_count ≥ conf2.cycles then PMON_L_BREAK else PMON_S_BREAK), conf2)
  else if conf.phase = PMON_L_BREAK then
    (PMON_WORK, { conf with cycle_count := 0 })
  else
    (PMON_WORK, conf)

-- src/pmon.c, line 202: `conf.phase = get_next_phase(&conf);` — one
-- transition of the main loop's state machine
def mainStep (conf : PmonConf) : PmonConf :=
  { (get_next_phase conf).2 with phase := (get_next_phase conf).1 }

/-- One observation per iteration of the countdown loop of `run_phase`:
the clock at the iteration's entry, the deadline at the iteration's entry,
the value `left = end_time - time(NULL)` (src/pmon.c line 96, an `int`,
recorded here in `Int` so that its sign is meaningful), and the value
written to `conf->current_phase_secs` (line 97). -/
structure TickObs where
  obsTime : Nat
  obsEnd : Nat
  obsLeft : Int
  obsCps : Nat
deriving DecidableEq

-- src/pmon.c, line 104: `while (paused) { sleep(1); }`, entered at clock
-- instant t; returns the instant at which the flag is observed clear
def pauseWait (paused : Nat → Bool) : Nat → Nat → Option Nat
  | 0, t => if paused t = true then none else some t
  | f+1, t => if paused t = true then pauseWait paused f (t+1) else some t

-- src/pmon.c, lines 95-108: the countdown loop.  One iteration at clock t:
-- line 96 computes left = endTime - t, line 97 writes
-- current_phase_secs = phase_length - left, line 99 sleeps one second,
-- line 101 samples the pause flag at t+1; if set, lines 102-106 record
-- pause_start = t+1, poll until the flag clears at some instant t2, and
-- shift the deadline by t2 - (t+1).
def runPhaseLoop (paused : Nat → Bool) (L : Nat) :
    Nat → Nat → Nat → Option (Nat × List TickObs)
  | 0, t, endTime => if t < endTime then none else some (t, [])
  | f+1, t, endTime =>
    if t < endTime then
      if paused (t+1) = true then
        match pauseWait paused f (t+1) with
        | none => none
        | some t2 =>
          match runPhaseLoop paused L f t2 (endTime + (t2 - (t+1))) with
          | none => none
          | some (tf, tr) =>
            some (tf, TickObs.mk t endTime ((endTime : Int) - (t : Int)) (L - (endTime - t)) :: tr)
      else
        match runPhaseLoop paused L f (t+1) endTime with
        | none => none
        | some (tf, tr) =>
          some (tf, TickObs.mk t endTime ((endTime : Int) - (t : Int)) (L - (endTime - t)) :: tr)
    else some (t, [])

-- src/pmon.c, lines 90-112: run one phase starting at clock t0; on loop
-- exit (line 110) roll the configured duration into the accumulators and
-- (line 111) reset current_phase_secs to 0.  Returns the final conf, the
-- clock at return, and the per-iteration trace.
def run_phase (paused : Nat → Bool) (fuel : Nat) (conf : PmonConf) (t0 : Nat) :
    Option (PmonConf × Nat × List TickObs) :=
  match runPhaseLoop paused (get_phase_length conf) fuel t0 (t0 + get_phase_length conf) with
  | none => none
  | some (tf, tr) =>
    some ({ update_tracked_time conf with current_phase_secs := 0 }, tf, tr)

-- src/pmon.c, lines 117-118: the two totals computed by print_final_stats
def print_final_stats_totals (c : PmonConf) : Nat × Nat :=
  ((c.work_secs + (if c.phase = PMON_WORK then c.current_phase_secs else 0)) % UINT_MOD,
   (c.break_secs + (if c.phase ≠ PMON_WORK then c.current_phase_secs else 0)) % UINT_MOD)

-- src/pmon.c, line 148: `paused = !paused` on a sig_atomic_t holding 0 or 1
def pause_handler (p : Nat) : Nat := if p = 0 then 1 else 0

-- src/pmon.c, lines 155-190: parse_cmd_args, abstracted over the four
-- numeric option values after atoi and conversion to unsigned (an omitted
-- option leaves its variable at the initial 0, line 158); the returned
-- compound literal zero-initializes the unlisted counter fields.
def parse_cmd_args (cycles work_mins lbreak_mins sbreak_mins : Nat) : PmonConf :=
  { phase := PMON_WORK
    cycle_count := 0
    work_secs := 0
    break_secs := 0
    current_phase_secs := 0
    cycles := if cycles ≠ 0 then cycles else DEFAULT_CYCLES
    work_time := ((if work_mins ≠ 0 then work_mins else DEFAULT_WORK_MINS) * SECONDS_IN_MINUTE) % UINT_MOD
    lbreak_time := ((if lbreak_mins ≠ 0 then lbreak_mins else DEFAULT_LONG_BREAK_MINS) * SECONDS_IN_MINUTE) % UINT_MOD
    sbreak_time := ((if sbreak_mins ≠ 0 then sbreak_mins else DEFAULT_SHORT_BREAK_MINS) * SECONDS_IN_MINUTE) % UINT_MOD }

/-- Number of instants s with a ≤ s < a + n at which the pause flag is set. -/
def countPausedAux (paused : Nat → Bool) : Nat → Nat → Nat
  | 0, _ => 0
  | n+1, a => (if paused a = true then 1 else 0) + countPausedAux paused n (a+1)

/-- Number of instants s with a ≤ s < b at which the pause flag is set. -/
def countPaused (paused : Nat → Bool) (a b : Nat) : Nat :=
  countPausedAux paused (b - a) a

/-- The all-clear pause oracle. -/
def pausedNone : Nat → Bool := fun _ => false

/-- A pause oracle that holds the flag set at instants 1 and 2 only. -/
def pausedEx : Nat → Bool := fun t => (t == 1) || (t == 2)

/-- A small work-phase configuration (work 2 s) used for concrete runs. -/
def confTiny : PmonConf :=
  ⟨PMON_WORK, 0, 0, 0, 0, 4, 2, 6, 3⟩

/-- `confTiny` after one completed work phase. -/
def confTiny2 : PmonConf :=
  ⟨PMON_WORK, 0, 2, 0, 0, 4, 2, 6, 3⟩

/-- Trace of the no-pause 2-second run of `confTiny`. -/
def trTiny : List TickObs := [⟨0, 2, 2, 0⟩, ⟨1, 2, 1, 1⟩]

/-- Trace of the 2-second run of `confTiny` paused at instants 1 and 2. -/
def trTinyP : List TickObs := [⟨0, 2, 2, 0⟩, ⟨3, 4, 1, 1⟩]

/-- A state 600 s into the first work phase, nothing accumulated. -/
def confMid : PmonConf :=
  ⟨PMON_WORK, 0, 0, 0, 600, 4, 1500, 1800, 300⟩

/-- A work-phase state with cycle_count 3 of 4. -/
def confCyc3 : PmonConf :=
  ⟨PMON_WORK, 3, 0, 0, 0, 4, 1500, 1800, 300⟩

/-- A long-break state with cycle_count 4 of 4. -/
def confLong4 : PmonConf :=
  ⟨PMON_L_BREAK, 4, 0, 0, 0, 4, 1500, 1800, 300⟩

/-- The base configuration with default durations, phase Work, counters 0. -/
def confBase : PmonConf :=
  ⟨PMON_WORK, 0, 0, 0, 0, 4, 1500, 1800, 300⟩

/-- `base` with its phase and cycle count replaced: the shape of the states
visited by the main loop's transition sequence. -/
def confAt (base : PmonConf) (p : PmonPhase) (k : Nat) : PmonConf :=
  { base with phase := p, cycle_count := k }

theorem pauseWait_spec (paused : Nat → Bool) :
    ∀ f t t2, pauseWait paused f t = some t2 →
      t ≤ t2 ∧ (∀ s, t ≤ s → s < t2 → paused s = true) ∧ paused t2 = false := by
  intro f
  induction f with
  | zero =>
    intro t t2 h
    by_cases hp : paused t = true
    · simp [pauseWait, hp] at h
    · simp [pauseWait, hp] at h
      subst h
      simp only [Bool.not_eq_true] at hp
      exact ⟨le_refl t, fun s hs hs2 => absurd (lt_of_le_of_lt hs hs2) (lt_irrefl t), hp⟩
  | succ f ih =>
    intro t t2 h
    by_cases hp : paused t = true
    · simp only [pauseWait, hp, if_pos] at h
      obtain ⟨h1, h2, h3⟩ := ih (t+1) t2 h
      refine ⟨by omega, ?_, h3⟩
      intro s hs hs2
      rcases Nat.eq_or_lt_of_le hs with h4 | h4
      · rw [← h4]; exact hp
      · exact h2 s (by omega) hs2
    · simp [pauseWait, hp] at h
      subst h
      simp only [Bool.not_eq_true] at hp
      exact ⟨le_refl t, fun s hs hs2 => absurd (lt_of_le_of_lt hs hs2) (lt_irrefl t), hp⟩

theorem countPaused_of_le (paused : Nat → Bool) (a b : Nat) (h : b ≤ a) :
    countPaused paused a b = 0 := by
  unfold countPaused
  rw [Nat.sub_eq_zero_of_le h]
  rfl

theorem countPaused_step (paused : Nat → Bool) (a b : Nat) (h : a < b) :
    countPaused paused a b =
      (if paused a = true then 1 else 0) + countPaused paused (a+1) b := by
  unfold countPaused
  rw [show b - a = (b - (a+1)) + 1 from by omega]
  rfl

theorem countPaused_false_left (paused : Nat → Bool) (a b : Nat)
    (hpa : paused a = false) :
    countPaused paused a b = countPaused paused (a+1) b := by
  by_cases hab : a < b
  · rw [countPaused_step paused a b hab, hpa]
    simp
  · rw [countPaused_of_le paused a b (by omega), countPaused_of_le paused (a+1) b (by omega)]

theorem countPaused_block_aux (paused : Nat → Bool) :
    ∀ d a b c, c = a + d → c ≤ b → (∀ s, a ≤ s → s < c → paused s = true) →
      countPaused paused a b = d + countPaused paused c b := by
  intro d
  induction d with
  | zero =>
    intro a b c hc _ _
    subst hc
    simp
  | succ d ih =>
    intro a b c hc hcb hall
    have hab : a < b := by omega
    rw [countPaused_step paused a b hab, hall a (le_refl a) (by omega)]
    rw [ih (a+1) b c (by omega) hcb (fun s hs hsc => hall s (by omega) hsc)]
    simp only [if_pos]
    omega

theorem countPaused_block (paused : Nat → Bool) (a b c : Nat)
    (hac : a ≤ c) (hcb : c ≤ b) (hall : ∀ s, a ≤ s → s < c → paused s = true) :
    countPaused paused a b = (c - a) + countPaused paused c b :=
  countPaused_block_aux paused (c - a) a b c (by omega) hcb hall

theorem runPhaseLoop_time (paused : Nat → Bool) (L : Nat) :
    ∀ f t endTime tf tr, t ≤ endTime →
      runPhaseLoop paused L f t endTime = some (tf, tr) →
      endTime ≤ tf ∧ tf = endTime + countPaused paused (t+1) tf := by
  intro f
  induction f with
  | zero =>
    intro t endTime tf tr hte h
    by_cases hlt : t < endTime
    · simp [runPhaseLoop, hlt] at h
    · simp [runPhaseLoop, hlt] at h
      obtain ⟨rfl, rfl⟩ := h
      have he : t = endTime := by omega
      subst he
      rw [countPaused_of_le paused (t+1) t (by omega)]
      omega
  | succ f ih =>
    intro t endTime tf tr hte h
    by_cases hlt : t < endTime
    · simp only [runPhaseLoop, if_pos hlt] at h
      by_cases hp : paused (t+1) = true
      · rw [if_pos hp] at h
        cases hw : pauseWait paused f (t+1) with
        | none => rw [hw] at h; simp at h
        | some t2 =>
          rw [hw] at h
          simp only [] at h
          cases hr : runPhaseLoop paused L f t2 (endTime + (t2 - (t+1))) with
          | none => rw [hr] at h; simp at h
          | some p =>
            obtain ⟨tf0, tr0⟩ := p
            rw [hr] at h
            simp only [Option.some.injEq, Prod.mk.injEq] at h
            obtain ⟨rfl, rfl⟩ := h
            obtain ⟨hw1, hw2, hw3⟩ := pauseWait_spec paused f (t+1) t2 hw
            have hinv : t2 ≤ endTime + (t2 - (t+1)) := by omega
            obtain ⟨h1, h2⟩ := ih t2 (endTime + (t2 - (t+1))) tf0 tr0 hinv hr
            refine ⟨by omega, ?_⟩
            have hb : countPaused paused (t+1) tf0 =
                (t2 - (t+1)) + countPaused paused t2 tf0 :=
              countPaused_block paused (t+1) tf0 t2 hw1 (by omega) hw2
            have hfl : countPaused paused t2 tf0 = countPaused paused (t2+1) tf0 :=
              countPaused_false_left paused t2 tf0 hw3
            rw [hb, hfl]
            omega
      · rw [if_neg hp] at h
        cases hr : runPhaseLoop paused L f (t+1) endTime with
        | none => rw [hr] at h; simp at h
        | some p =>
          obtain ⟨tf0, tr0⟩ := p
          rw [hr] at h
          simp only [Option.some.injEq, Prod.mk.injEq] at h
          obtain ⟨rfl, rfl⟩ := h
          obtain ⟨h1, h2⟩ := ih (t+1) endTime tf0 tr0 (by omega) hr
          simp only [Bool.not_eq_true] at hp
          have hfl : countPaused paused (t+1) tf0 = countPaused paused (t+1+1) tf0 :=
            countPaused_false_left paused (t+1) tf0 hp
          rw [hfl]
          omega
    · simp [runPhaseLoop, hlt] at h
      obtain ⟨rfl, rfl⟩ := h
      have he : t = endTime := by omega
      subst he
      rw [countPaused_of_le paused (t+1) t (by omega)]
      omega

theorem runPhaseLoop_trace (paused : Nat → Bool) (L : Nat) :
    ∀ f t endTime tf tr,
      runPhaseLoop paused L f t endTime = some (tf, tr) →
      ∀ e ∈ tr, e.obsTime < e.obsEnd ∧
        e.obsLeft = (e.obsEnd : Int) - (e.obsTime : Int) ∧
        e.obsCps = L - (e.obsEnd - e.obsTime) := by
  intro f
  induction f with
  | zero =>
    intro t endTime tf tr h
    by_cases hlt : t < endTime
    · simp [runPhaseLoop, hlt] at h
    · simp [runPhaseLoop, hlt] at h
      obtain ⟨rfl, rfl⟩ := h
      intro e he
      simp at he
  | succ f ih =>
    intro t endTime tf tr h
    by_cases hlt : t < endTime
    · simp only [runPhaseLoop, if_pos hlt] at h
      by_cases hp : paused (t+1) = true
      · rw [if_pos hp] at h
        cases hw : pauseWait paused f (t+1) with
        | none => rw [hw] at h; simp at h
        | some t2 =>
          rw [hw] at h
          simp only [] at h
          cases hr : runPhaseLoop paused L f t2 (endTime + (t2 - (t+1))) with
          | none => rw [hr] at h; simp at h
          | some p =>
            obtain ⟨tf0, tr0⟩ := p
            rw [hr] at h
            simp only [Option.some.injEq, Prod.mk.injEq] at h
            obtain ⟨rfl, rfl⟩ := h
            intro e he
            rcases List.mem_cons.mp he with he1 | he2
            · subst he1
              exact ⟨hlt, rfl, rfl⟩
            · exact ih t2 (endTime + (t2 - (t+1))) tf0 tr0 hr e he2
      · rw [if_neg hp] at h
        cases hr : runPhaseLoop paused L f (t+1) endTime with
        | none => rw [hr] at h; simp at h
        | some p =>
          obtain ⟨tf0, tr0⟩ := p
          rw [hr] at h
          simp only [Option.some.injEq, Prod.mk.injEq] at h
          obtain ⟨rfl, rfl⟩ := h
          intro e he
          rcases List.mem_cons.mp he with he1 | he2
          · subst he1
            exact ⟨hlt, rfl, rfl⟩
          · exact ih (t+1) endTime tf0 tr0 hr e he2
    · simp [runPhaseLoop, hlt] at h
      obtain ⟨rfl, rfl⟩ := h
      intro e he
      simp at he

theorem run_phase_eq (paused : Nat → Bool) (fuel : Nat) (conf conf2 : PmonConf)
    (t0 tf : Nat) (tr : List TickObs)
    (h : run_phase paused fuel conf t0 = some (conf2, tf, tr)) :
    runPhaseLoop paused (get_phase_length conf) fuel t0 (t0 + get_phase_length conf) =
      some (tf, tr) ∧
    conf2 = { update_tracked_time conf with current_phase_secs := 0 } := by
  unfold run_phase at h
  cases hl : runPhaseLoop paused (get_phase_length conf) fuel t0 (t0 + get_phase_length conf) with
  | none => rw [hl] at h; simp at h
  | some p =>
    obtain ⟨tf0, tr0⟩ := p
    rw [hl] at h
    simp only [Option.some.injEq, Prod.mk.injEq] at h
    obtain ⟨h1, h2, h3⟩ := h
    subst h2
    subst h3
    exact ⟨rfl, h1.symm⟩

theorem mainStep_confAt_work (base : PmonConf) (k : Nat) (hk : k + 1 < UINT_MOD) :
    mainStep (confAt base PMON_WORK k) =
      confAt base (if base.cycles ≤ k + 1 then PMON_L_BREAK else PMON_S_BREAK) (k+1) := by
  simp [mainStep, get_next_phase, confAt, Nat.mod_eq_of_lt hk]

theorem mainStep_confAt_short (base : PmonConf) (k : Nat) :
    mainStep (confAt base PMON_S_BREAK k) = confAt base PMON_WORK k := by
  simp [mainStep, get_next_phase, confAt]

theorem mainStep_confAt_long (base : PmonConf) (k : Nat) :
    mainStep (confAt base PMON_L_BREAK k) = confAt base PMON_WORK 0 := by
  simp [mainStep, get_next_phase, confAt]

theorem mainStep_iterate_work (base : PmonConf) (N : Nat) (hcy : base.cycles = N)
    (hU : N < UINT_MOD) :
    ∀ k, k < N → (mainStep^[2*k]) (confAt base PMON_WORK 0) = confAt base PMON_WORK k := by
  intro k
  induction k with
  | zero => intro _; rfl
  | succ k ih =>
    intro hk
    have hk2 : k < N := by omega
    have h2 : 2*(k+1) = 2*k + 1 + 1 := by ring
    rw [h2, Function.iterate_succ_apply', Function.iterate_succ_apply', ih hk2]
    rw [mainStep_confAt_work base k (by omega)]
    have hcond : ¬ base.cycles ≤ k + 1 := by rw [hcy]; omega
    rw [if_neg hcond, mainStep_confAt_short]

/-- Claim C1: the phase scheduler `get_next_phase`, applied to a state in
phase `PMON_WORK`, increments `cycle_count` (the 32-bit increment of the
source, equal to the plain successor whenever it does not wrap) and returns
`PMON_L_BREAK` when the incremented count is at least `cycles` and
`PMON_S_BREAK` otherwise; applied to a `PMON_L_BREAK` state it resets
`cycle_count` to 0 and returns `PMON_WORK`; applied to a `PMON_S_BREAK`
state it returns `PMON_WORK` and leaves `cycle_count` unchanged.  This
holds for every phase value and every `cycle_count`. -/
theorem C1_scheduler_rules (conf : PmonConf) :
    (conf.phase = PMON_WORK →
      (get_next_phase conf).2.cycle_count = (conf.cycle_count + 1) % UINT_MOD ∧
      (conf.cycle_count + 1 < UINT_MOD →
        (get_next_phase conf).2.cycle_count = conf.cycle_count + 1) ∧
      (get_next_phase conf).1 =
        (if (conf.cycle_count + 1) % UINT_MOD ≥ conf.cycles then PMON_L_BREAK
         else PMON_S_BREAK)) ∧
    (conf.phase = PMON_L_BREAK →
      (get_next_phase conf).1 = PMON_WORK ∧
      (get_next_phase conf).2.cycle_count = 0) ∧
    (conf.phase = PMON_S_BREAK →
      (get_next_phase conf).1 = PMON_WORK ∧
      (get_next_phase conf).2.cycle_count = conf.cycle_count) := by
  refine ⟨fun h => ⟨?_, fun hlt => ?_, ?_⟩, fun h => ?_, fun h => ?_⟩
  · simp [get_next_phase, h]
  · simp [get_next_phase, h, Nat.mod_eq_of_lt hlt]
  · simp [get_next_phase, h]
  · simp [get_next_phase, h]
  · simp [get_next_phase, h]

/-- Witness for C1 at a concrete work state (cycle 3 of 4): the scheduler
increments the count to 4 and schedules the long break. -/
theorem C1_scheduler_rules_witness :
    (get_next_phase confCyc3).2.cycle_count = 4 ∧
    (get_next_phase confCyc3).1 = PMON_L_BREAK := by
  have h := (C1_scheduler_rules confCyc3).1 rfl
  refine ⟨h.2.1 (by decide), ?_⟩
  rw [h.2.2]
  decide

/-- Claim C9: two consecutive invocations of the SIGUSR1 pause toggle with
no tick boundary between them restore the paused flag's original value
(the flag, a sig_atomic_t, only ever holds 0 or 1). -/
theorem C9_toggle_toggle (p : Nat) (h : p ≤ 1) :
    pause_handler (pause_handler p) = p := by
  have h01 : p = 0 ∨ p = 1 := by omega
  rcases h01 with rfl | rfl <;> rfl

/-- Witness for C9 at the set flag. -/
theorem C9_toggle_toggle_witness : pause_handler (pause_handler 1) = 1 :=
  C9_toggle_toggle 1 (by decide)

/-- Claim C10 counterexample: on the command line `-w 1073741824` the
options -c, -l and -s are omitted (their variables stay 0 and the fields
get the defaults), yet the work duration of the returned configuration is
0, because 1073741824 * 60 is a multiple of 2^32 and the unsigned
multiplication wraps; so it is not the case that every duration field is
nonzero whenever some option is omitted or parses to 0. -/
theorem C10_counterexample :
    (parse_cmd_args 0 1073741824 0 0).cycles = DEFAULT_CYCLES ∧
    (parse_cmd_args 0 1073741824 0 0).lbreak_time = DEFAULT_LONG_BREAK_MINS * SECONDS_IN_MINUTE ∧
    (parse_cmd_args 0 1073741824 0 0).work_time = 0 := by decide

/-- Claim C10 (amended): each of the four options that is omitted or whose
argument parses to 0 yields the compiled default for its field (4 cycles,
25-minute work, 5-minute short break, 30-minute long break, durations
converted to seconds); the cycle count is always nonzero; and each duration
field is nonzero provided the minutes-to-seconds conversion of the supplied
value does not wrap modulo 2^32 (in particular whenever that option is
omitted or zero). -/
theorem C10_defaults (cycles work_mins lbreak_mins sbreak_mins : Nat) :
    (cycles = 0 →
      (parse_cmd_args cycles work_mins lbreak_mins sbreak_mins).cycles = DEFAULT_CYCLES) ∧
    (work_mins = 0 →
      (parse_cmd_args cycles work_mins lbreak_mins sbreak_mins).work_time =
        DEFAULT_WORK_MINS * SECONDS_IN_MINUTE) ∧
    (lbreak_mins = 0 →
      (parse_cmd_args cycles work_mins lbreak_mins sbreak_mins).lbreak_time =
        DEFAULT_LONG_BREAK_MINS * SECONDS_IN_MINUTE) ∧
    (sbreak_mins = 0 →
      (parse_cmd_args cycles work_mins lbreak_mins sbreak_mins).sbreak_time =
        DEFAULT_SHORT_BREAK_MINS * SECONDS_IN_MINUTE) ∧
    (parse_cmd_args cycles work_mins lbreak_mins sbreak_mins).cycles ≠ 0 ∧
    (work_mins * SECONDS_IN_MINUTE < UINT_MOD →
      (parse_cmd_args cycles work_mins lbreak_mins sbreak_mins).work_time ≠ 0) ∧
    (lbreak_mins * SECONDS_IN_MINUTE < UINT_MOD →
      (parse_cmd_args cycles work_mins lbreak_mins sbreak_mins).lbreak_time ≠ 0) ∧
    (sbreak_mins * SECONDS_IN_MINUTE < UINT_MOD →
      (parse_cmd_args cycles work_mins lbreak_mins sbreak_mins).sbreak_time ≠ 0) := by
  refine ⟨fun h => ?_, fun h => ?_, fun h => ?_, fun h => ?_, ?_, fun h => ?_, fun h => ?_, fun h => ?_⟩
  · simp [parse_cmd_args, h]
  · subst h
    simp only [parse_cmd_args]
    decide
  · subst h
    simp only [parse_cmd_args]
    decide
  · subst h
    simp only [parse_cmd_args]
    decide
  · by_cases h : cycles = 0
    · simp [parse_cmd_args, h, DEFAULT_CYCLES]
    · simp [parse_cmd_args, h]
  · by_cases hz : work_mins = 0
    · subst hz
      simp only [parse_cmd_args]
      decide
    · simp only [parse_cmd_args]
      rw [if_pos hz, Nat.mod_eq_of_lt h, show SECONDS_IN_MINUTE = 60 from rfl]
      omega
  · by_cases hz : lbreak_mins = 0
    · subst hz
      simp only [parse_cmd_args]
      decide
    · simp only [parse_cmd_args]
      rw [if_pos hz, Nat.mod_eq_of_lt h, show SECONDS_IN_MINUTE = 60 from rfl]
      omega
  · by_cases hz : sbreak_mins = 0
    · subst hz
      simp only [parse_cmd_args]
      decide
    · simp only [parse_cmd_args]
      rw [if_pos hz, Nat.mod_eq_of_lt h, show SECONDS_IN_MINUTE = 60 from rfl]
      omega

/-- Witness for C10 on the command line `-w 7`: cycles defaults to 4 and
the work duration 420 is nonzero. -/
theorem C10_defaults_witness :
    (parse_cmd_args 0 7 0 0).cycles = DEFAULT_CYCLES ∧
    (parse_cmd_args 0 7 0 0).work_time ≠ 0 := by
  have h := C10_defaults 0 7 0 0
  exact ⟨h.1 rfl, h.2.2.2.2.2.1 (by decide)⟩

/-- Claim C4: the summary computed by print_final_stats adds
`current_phase_secs` to the work total exactly when the current phase is
`PMON_WORK` and to the break total exactly otherwise (stated under the
hypothesis that the unsigned sums do not wrap); the 600-seconds-into-work
scenario is the witness below. -/
theorem C4_summary (c : PmonConf)
    (hw : c.work_secs + (if c.phase = PMON_WORK then c.current_phase_secs else 0) < UINT_MOD)
    (hb : c.break_secs + (if c.phase ≠ PMON_WORK then c.current_phase_secs else 0) < UINT_MOD) :
    (print_final_stats_totals c).1 =
      c.work_secs + (if c.phase = PMON_WORK then c.current_phase_secs else 0) ∧
    (print_final_stats_totals c).2 =
      c.break_secs + (if c.phase ≠ PMON_WORK then c.current_phase_secs else 0) := by
  unfold print_final_stats_totals
  exact ⟨Nat.mod_eq_of_lt hw, Nat.mod_eq_of_lt hb⟩

/-- Witness for C4: terminating 600 s into the first work phase with
nothing accumulated reports 600 s of work and 0 s of break. -/
theorem C4_summary_witness : print_final_stats_totals confMid = (600, 0) := by
  have h := C4_summary confMid (by decide) (by decide)
  rw [Prod.ext_iff]
  constructor
  · rw [h.1]; decide
  · rw [h.2]; decide

/-- Claim C5 counterexample: from the work state `confCyc3` (cycle count 3,
cycles-per-long-break 4) the main-loop transition enters `PMON_L_BREAK`
with cycle count 4, not 0: the cycle count is not reset when the long
break begins. -/
theorem C5_counterexample :
    (mainStep confCyc3).phase = PMON_L_BREAK ∧
    (mainStep confCyc3).cycle_count = 4 := by decide

/-- Claim C5 (amended): `cycle_count` is reset to 0 exactly when a long
break ends, not when it begins: the transition out of `PMON_L_BREAK` (which
enters `PMON_WORK`) sets it to 0; the transition out of `PMON_S_BREAK`
leaves it unchanged; the transition out of `PMON_WORK` (the only one that
can enter `PMON_L_BREAK`) sets it to the incremented value, which is
nonzero whenever the 32-bit increment does not wrap. -/
theorem C5_reset_on_long_break_end (conf : PmonConf) :
    (conf.phase = PMON_L_BREAK → (mainStep conf).cycle_count = 0) ∧
    (conf.phase = PMON_S_BREAK → (mainStep conf).cycle_count = conf.cycle_count) ∧
    (conf.phase = PMON_WORK →
      (mainStep conf).cycle_count = (conf.cycle_count + 1) % UINT_MOD ∧
      (conf.cycle_count + 1 < UINT_MOD → (mainStep conf).cycle_count ≠ 0)) := by
  refine ⟨fun h => ?_, fun h => ?_, fun h => ⟨?_, fun hlt => ?_⟩⟩
  · simp [mainStep, get_next_phase, h]
  · simp [mainStep, get_next_phase, h]
  · simp [mainStep, get_next_phase, h]
  · simp [mainStep, get_next_phase, h, Nat.mod_eq_of_lt hlt]

/-- Witness for C5: leaving the long break resets the cycle count. -/
theorem C5_reset_on_long_break_end_witness :
    (mainStep confLong4).cycle_count = 0 :=
  (C5_reset_on_long_break_end confLong4).1 rfl

/-- Claim C6: with cycles-per-long-break N ≥ 1 (below the 32-bit wrap),
starting from Work with cycle count 0, the main loop's transition sequence
completes exactly N work phases before the cycle count returns to 0 via a
long break: before the (k+1)-th work completion (k < N) the state is Work
with cycle count k, each of the first N-1 work completions yields a short
break with the incremented count, the N-th yields the long break with
cycle count N, and after the long break completes the state is Work with
cycle count 0. -/
theorem C6_rotation (base : PmonConf) (N : Nat) (h1 : 1 ≤ N)
    (hU : N < UINT_MOD) (hcy : base.cycles = N) :
    (∀ k, k < N →
      (mainStep^[2*k]) (confAt base PMON_WORK 0) = confAt base PMON_WORK k) ∧
    (∀ k, k + 1 < N →
      (mainStep^[2*k+1]) (confAt base PMON_WORK 0) = confAt base PMON_S_BREAK (k+1)) ∧
    (mainStep^[2*(N-1)+1]) (confAt base PMON_WORK 0) = confAt base PMON_L_BREAK N ∧
    (mainStep^[2*N]) (confAt base PMON_WORK 0) = confAt base PMON_WORK 0 := by
  have hiter := mainStep_iterate_work base N hcy hU
  have hlong : (mainStep^[2*(N-1)+1]) (confAt base PMON_WORK 0) =
      confAt base PMON_L_BREAK N := by
    rw [Function.iterate_succ_apply', hiter (N-1) (by omega),
      mainStep_confAt_work base (N-1) (by omega)]
    have hc : base.cycles ≤ (N-1) + 1 := by rw [hcy]; omega
    rw [if_pos hc, show N - 1 + 1 = N from by omega]
  refine ⟨hiter, ?_, hlong, ?_⟩
  · intro k hk
    rw [Function.iterate_succ_apply', hiter k (by omega),
      mainStep_confAt_work base k (by omega)]
    have hc : ¬ base.cycles ≤ k + 1 := by rw [hcy]; omega
    rw [if_neg hc]
  · have h2N : 2*N = (2*(N-1)+1) + 1 := by omega
    rw [h2N, Function.iterate_succ_apply', hlong, mainStep_confAt_long]

/-- Witness for C6 at N = 4 with the default configuration: the 4th work
completion (transition 7) enters the long break with cycle count 4, and
transition 8 returns to Work with cycle count 0. -/
theorem C6_rotation_witness :
    (mainStep^[7]) (confAt confBase PMON_WORK 0) = confAt confBase PMON_L_BREAK 4 ∧
    (mainStep^[8]) (confAt confBase PMON_WORK 0) = confAt confBase PMON_WORK 0 := by
  have h := C6_rotation confBase 4 (by decide) (by decide) rfl
  exact ⟨h.2.2.1, h.2.2.2⟩

/-- Claim C2 counterexample: running the 2-second work phase of `confTiny`
with the pause flag never set (duration D = 2, pause total P = 0),
`run_phase` returns at the expected time, but `current_phase_secs` at
completion is 0 rather than D, and the values it takes during the loop are
0 and 1: it never equals D = 2 at any point of the phase. -/
theorem C2_counterexample :
    get_phase_length confTiny = 2 ∧
    run_phase pausedNone 5 confTiny 0 = some (confTiny2, 2, trTiny) ∧
    confTiny2.current_phase_secs = 0 ∧
    trTiny.map TickObs.obsCps = [0, 1] := by decide

/-- Claim C2 (amended): whenever `run_phase` returns from a phase of
configured duration D entered at clock t0, the clock at return is exactly
t0 + D + P, where P is the number of instants in (t0, tf) at which the
pause flag was set (the deadline-shift makes the pause cost the run exactly
its wall-clock length); at completion the phase's full configured duration
is rolled into the matching accumulator and `current_phase_secs` is reset
to 0; during the phase `current_phase_secs` stays strictly below D. -/
theorem C2_deadline_shift (paused : Nat → Bool) (fuel : Nat)
    (conf conf2 : PmonConf) (t0 tf : Nat) (tr : List TickObs)
    (hrun : run_phase paused fuel conf t0 = some (conf2, tf, tr)) :
    tf = t0 + get_phase_length conf + countPaused paused (t0+1) tf ∧
    conf2.current_phase_secs = 0 ∧
    conf2.work_secs = (if conf.phase = PMON_WORK
      then (conf.work_secs + conf.work_time) % UINT_MOD else conf.work_secs) ∧
    conf2.break_secs = (if conf.phase = PMON_WORK then conf.break_secs
      else (conf.break_secs +
        (if conf.phase = PMON_L_BREAK then conf.lbreak_time
         else conf.sbreak_time)) % UINT_MOD) ∧
    (0 < get_phase_length conf → ∀ e ∈ tr, e.obsCps < get_phase_length conf) := by
  obtain ⟨hl, hconf⟩ := run_phase_eq paused fuel conf conf2 t0 tf tr hrun
  obtain ⟨h1, h2⟩ := runPhaseLoop_time paused (get_phase_length conf) fuel t0
    (t0 + get_phase_length conf) tf tr (by omega) hl
  subst hconf
  refine ⟨by omega, rfl, ?_, ?_, ?_⟩
  · by_cases hw : conf.phase = PMON_WORK <;> simp [update_tracked_time, hw]
  · by_cases hw : conf.phase = PMON_WORK <;> simp [update_tracked_time, hw]
  · intro hL e he
    obtain ⟨ht, -, hcps⟩ := runPhaseLoop_trace paused (get_phase_length conf) fuel t0
      (t0 + get_phase_length conf) tf tr hl e he
    rw [hcps]
    exact Nat.sub_lt hL (by omega)

/-- Witness for C2 on the 2-second phase of `confTiny` paused at instants
1 and 2: the phase completes at clock 4 = 0 + D + P with D = 2, P = 2, and
the elapsed counter is reset to 0. -/
theorem C2_deadline_shift_witness :
    (4 : Nat) = 0 + get_phase_length confTiny + countPaused pausedEx (0+1) 4 ∧
    confTiny2.current_phase_secs = 0 := by
  have h := C2_deadline_shift pausedEx 10 confTiny confTiny2 0 4 trTinyP (by decide)
  exact ⟨h.1, h.2.1⟩

/-- Claim C3: when the countdown loop of `run_phase` exits, the accumulator
of the completed phase (`work_secs` for a work phase, `break_secs`
otherwise) grows by exactly the phase's full configured duration — not by
the wall-clock elapsed time — the other accumulator is unchanged, and
`current_phase_secs` is reset to 0 (stated under the hypothesis that the
unsigned additions do not wrap). -/
theorem C3_accumulate_full_duration (paused : Nat → Bool) (fuel : Nat)
    (conf conf2 : PmonConf) (t0 tf : Nat) (tr : List TickObs)
    (hrun : run_phase paused fuel conf t0 = some (conf2, tf, tr))
    (hw : conf.work_secs + conf.work_time < UINT_MOD)
    (hb1 : conf.break_secs + conf.lbreak_time < UINT_MOD)
    (hb2 : conf.break_secs + conf.sbreak_time < UINT_MOD) :
    (conf.phase = PMON_WORK →
      conf2.work_secs = conf.work_secs + conf.work_time ∧
      conf2.break_secs = conf.break_secs) ∧
    (conf.phase = PMON_L_BREAK →
      conf2.break_secs = conf.break_secs + conf.lbreak_time ∧
      conf2.work_secs = conf.work_secs) ∧
    (conf.phase = PMON_S_BREAK →
      conf2.break_secs = conf.break_secs + conf.sbreak_time ∧
      conf2.work_secs = conf.work_secs) ∧
    conf2.current_phase_secs = 0 := by
  obtain ⟨-, hconf⟩ := run_phase_eq paused fuel conf conf2 t0 tf tr hrun
  subst hconf
  refine ⟨fun h => ?_, fun h => ?_, fun h => ?_, rfl⟩
  · simp [update_tracked_time, h, Nat.mod_eq_of_lt hw]
  · simp [update_tracked_time, h, Nat.mod_eq_of_lt hb1]
  · simp [update_tracked_time, h, Nat.mod_eq_of_lt hb2]

/-- Witness for C3 on the completed 2-second work phase of `confTiny`:
work_secs grows by exactly the configured 2 seconds, break_secs is
untouched, and the elapsed counter is reset. -/
theorem C3_accumulate_full_duration_witness :
    confTiny2.work_secs = confTiny.work_secs + confTiny.work_time ∧
    confTiny2.break_secs = confTiny.break_secs ∧
    confTiny2.current_phase_secs = 0 := by
  have h := C3_accumulate_full_duration pausedNone 5 confTiny confTiny2 0 2 trTiny
    (by decide) (by decide) (by decide) (by decide)
  exact ⟨(h.1 rfl).1, (h.1 rfl).2, h.2.2.2⟩

/-- Claim C7: during any completed `run_phase`, `current_phase_secs` never
exceeds the configured duration of the active phase: every value the
countdown loop writes to it is strictly below the duration, and its value
at completion is 0.  (At phase start it is 0: the initial state
zero-initializes it and every `run_phase` exit resets it.) -/
theorem C7_elapsed_bounded (paused : Nat → Bool) (fuel : Nat)
    (conf conf2 : PmonConf) (t0 tf : Nat) (tr : List TickObs)
    (hrun : run_phase paused fuel conf t0 = some (conf2, tf, tr))
    (hL : 0 < get_phase_length conf) :
    (∀ e ∈ tr, e.obsCps < get_phase_length conf) ∧
    conf2.current_phase_secs = 0 := by
  obtain ⟨hl, hconf⟩ := run_phase_eq paused fuel conf conf2 t0 tf tr hrun
  subst hconf
  refine ⟨?_, rfl⟩
  intro e he
  obtain ⟨ht, -, hcps⟩ := runPhaseLoop_trace paused (get_phase_length conf) fuel t0
    (t0 + get_phase_length conf) tf tr hl e he
  rw [hcps]
  exact Nat.sub_lt hL (by omega)

/-- Witness for C7 on the paused run of `confTiny`: the loop iteration
entered at clock 3 wrote elapsed value 1 < 2, and the completed state's
counter is 0. -/
theorem C7_elapsed_bounded_witness :
    TickObs.obsCps ⟨3, 4, 1, 1⟩ < get_phase_length confTiny ∧
    confTiny2.current_phase_secs = 0 := by
  have h := C7_elapsed_bounded pausedEx 10 confTiny confTiny2 0 4 trTinyP
    (by decide) (by decide)
  exact ⟨h.1 ⟨3, 4, 1, 1⟩ (by decide), h.2⟩

/-- Claim C8: on every iteration of the countdown loop the computed
`left = end_time - time(NULL)` is never negative (indeed positive),
because the loop is entered only while the clock is before the deadline. -/
theorem C8_left_nonneg (paused : Nat → Bool) (fuel : Nat)
    (conf conf2 : PmonConf) (t0 tf : Nat) (tr : List TickObs)
    (hrun : run_phase paused fuel conf t0 = some (conf2, tf, tr)) :
    ∀ e ∈ tr, e.obsTime < e.obsEnd ∧ 0 ≤ e.obsLeft := by
  obtain ⟨hl, -⟩ := run_phase_eq paused fuel conf conf2 t0 tf tr hrun
  intro e he
  obtain ⟨ht, hleft, -⟩ := runPhaseLoop_trace paused (get_phase_length conf) fuel t0
    (t0 + get_phase_length conf) tf tr hl e he
  refine ⟨ht, ?_⟩
  rw [hleft]
  omega

/-- Witness for C8 on the paused run of `confTiny`: the iteration entered
at clock 3 has deadline 4 and recorded left = 1 ≥ 0. -/
theorem C8_left_nonneg_witness :
    TickObs.obsTime ⟨3, 4, 1, 1⟩ < TickObs.obsEnd ⟨3, 4, 1, 1⟩ ∧
    (0 : Int) ≤ TickObs.obsLeft ⟨3, 4, 1, 1⟩ := by
  have h := C8_left_nonneg pausedEx 10 confTiny confTiny2 0 4 trTinyP (by decide)
  exact h ⟨3, 4, 1, 1⟩ (by decide)
